import Mathlib

/-!
# Verification of the `rejson-struct` example program

Shallow embedding of `src/main.go`: a Go `Student` struct (with a nested
`*StudentDetails` pointer field) persisted to Redis under three encodings —
reflection-based hash flattening (`HMSET` + `redis.Args.AddFlat`), a marshaled
JSON string in one hash field (`HSET key "JSON" bytes`), and a native JSON
document via the ReJSON module (`JSON.SET` / `JSON.GET`).

The embedding models:
* the `Student` / `StudentDetails` data model (a nil-able pointer becomes
  `Option`),
* Go's `encoding/json` marshaling of these two types (field tags
  `info,omitempty` / `rank,omitempty`, untagged `StudentDetails` fields),
  as a JSON value together with its exact compact textual rendering
  (including Go's string escaping) and a JSON parser, proved inverse to the
  renderer,
* the Redis commands the program issues (HMSET, HSET, HGET, HGETALL,
  JSON.SET at the root path, JSON.GET at the root path) as a deterministic
  transition function on an explicit store state,
* each of the program's wrapper functions (`addStructHash`, `getStructHash`,
  `addStructReJSON`, `getStructReJSON`, `addStructHashWithJSON`,
  `getStructHashWithJSON`) as state-passing functions built from those
  commands.
-/

namespace RejsonStruct

/-- `StudentDetails` from `src/main.go`: three untagged string fields, so
`encoding/json` uses the Go field names as JSON keys. -/
structure StudentDetails where
  FirstName : String
  LastName : String
  Major : String
deriving DecidableEq, Repr

/-- `Student` from `src/main.go`.  `Info *StudentDetails` is a nil-able
pointer, embedded as `Option StudentDetails`; `Rank int` is embedded as `Int`.
JSON tags: `info,omitempty` and `rank,omitempty`. -/
structure Student where
  Info : Option StudentDetails
  Rank : Int
deriving DecidableEq, Repr

/-! ## Characters and digits

The brace characters are only ever referred to through `lbrace`/`rbrace`
(or `\x7b`/`\x7d` escapes inside string literals). -/

def lbrace : Char := Char.ofNat 123

def rbrace : Char := Char.ofNat 125

/-- The decimal digit character for `n < 10`. -/
def digitChar (n : Nat) : Char := Char.ofNat (48 + n)

/-- Numeric value of a decimal digit character. -/
def digitVal (c : Char) : Nat := c.toNat - 48

/-- Lower-case hexadecimal digit character for `n < 16` (Go's encoder uses
the lower-case alphabet `0123456789abcdef`). -/
def hexChar (n : Nat) : Char :=
  if n < 10 then Char.ofNat (48 + n) else Char.ofNat (87 + n)

/-- Numeric value of a hexadecimal digit character, if it is one. -/
def hexCharVal (c : Char) : Option Nat :=
  if 48 ≤ c.toNat ∧ c.toNat ≤ 57 then some (c.toNat - 48)
  else if 97 ≤ c.toNat ∧ c.toNat ≤ 102 then some (c.toNat - 87)
  else if 65 ≤ c.toNat ∧ c.toNat ≤ 70 then some (c.toNat - 55)
  else none

theorem hexCharVal_hexChar (n : Nat) (h : n < 16) : hexCharVal (hexChar n) = some n := by
  interval_cases n <;> rfl

theorem digitVal_digitChar (n : Nat) (h : n < 10) : digitVal (digitChar n) = n := by
  interval_cases n <;> rfl

theorem isDigit_digitChar (n : Nat) (h : n < 10) : (digitChar n).isDigit = true := by
  interval_cases n <;> rfl

/-! ## Decimal rendering of integers (Go renders `int` in base 10) -/

/-- Fuelled decimal digit list of a natural number (most significant first).
Fuel `n + 1` always suffices, see `natToDigits`. -/
def natToDigitsAux : Nat → Nat → List Char
  | 0, _ => []
  | fuel + 1, n =>
    if n < 10 then [digitChar n]
    else natToDigitsAux fuel (n / 10) ++ [digitChar (n % 10)]

def natToDigits (n : Nat) : List Char := natToDigitsAux (n + 1) n

/-- Decimal rendering of a Go `int`, a leading `-` for negative values. -/
def intToChars (i : Int) : List Char :=
  if i < 0 then '-' :: natToDigits i.natAbs else natToDigits i.toNat

def intToString (i : Int) : String := String.mk (intToChars i)

/-! ## Go `encoding/json` string escaping

`escapeChar` follows Go's encoder: `"` and `\` are backslash-escaped, the
common control characters use `\n`, `\r`, `\t`, the remaining control
characters use `\u00XX`, and (HTML escaping being on by default) `<`, `>`,
`&`, U+2028 and U+2029 are also `\u`-escaped. -/

def escapeChar (c : Char) : List Char :=
  if c = '"' then ['\\', '"']
  else if c = '\\' then ['\\', '\\']
  else if c = '\n' then ['\\', 'n']
  else if c = '\r' then ['\\', 'r']
  else if c = '\t' then ['\\', 't']
  else if c = '<' then ['\\', 'u', '0', '0', '3', 'c']
  else if c = '>' then ['\\', 'u', '0', '0', '3', 'e']
  else if c = '&' then ['\\', 'u', '0', '0', '2', '6']
  else if c = Char.ofNat 0x2028 then ['\\', 'u', '2', '0', '2', '8']
  else if c = Char.ofNat 0x2029 then ['\\', 'u', '2', '0', '2', '9']
  else if c.toNat < 32 then
    ['\\', 'u', '0', '0', hexChar (c.toNat / 16), hexChar (c.toNat % 16)]
  else [c]

def escapeList : List Char → List Char
  | [] => []
  | c :: t => escapeChar c ++ escapeList t

/-- The JSON text of a string literal: quote, escaped body, quote. -/
def renderString (s : String) : List Char := '"' :: (escapeList s.data ++ ['"'])

/-! ## JSON string literal parsing -/

/-- Single-character escapes accepted after a backslash. -/
def simpleEscape (e : Char) : Option Char :=
  if e = '"' then some '"'
  else if e = '\\' then some '\\'
  else if e = '/' then some '/'
  else if e = 'n' then some '\n'
  else if e = 'r' then some '\r'
  else if e = 't' then some '\t'
  else if e = 'b' then some (Char.ofNat 8)
  else if e = 'f' then some (Char.ofNat 12)
  else none

def hexQuad (a b c d : Char) : Option Nat :=
  match hexCharVal a, hexCharVal b, hexCharVal c, hexCharVal d with
  | some va, some vb, some vc, some vd => some (((va * 16 + vb) * 16 + vc) * 16 + vd)
  | _, _, _, _ => none

/-- Parse the body of a JSON string literal (the opening quote already
consumed); returns the decoded characters and the input after the closing
quote. -/
def parseStringAux : List Char → Option (List Char × List Char)
  | [] => none
  | '"' :: rest => some ([], rest)
  | '\\' :: 'u' :: h1 :: h2 :: h3 :: h4 :: rest =>
    match hexQuad h1 h2 h3 h4 with
    | some n =>
      match parseStringAux rest with
      | some (s, rem) => some (Char.ofNat n :: s, rem)
      | none => none
    | none => none
  | '\\' :: e :: rest =>
    match simpleEscape e with
    | some d =>
      match parseStringAux rest with
      | some (s, rem) => some (d :: s, rem)
      | none => none
    | none => none
  | ['\\'] => none
  | c :: rest =>
    match parseStringAux rest with
    | some (s, rem) => some (c :: s, rem)
    | none => none

/-- Parsing a string-literal body inverts Go's escaping. -/
theorem parseStringAux_escapeList (s : List Char) (r : List Char) :
    parseStringAux (escapeList s ++ '"' :: r) = some (s, r) := by
  induction s with
  | nil => rfl
  | cons c t ih =>
    show parseStringAux ((escapeChar c ++ escapeList t) ++ '"' :: r) = some (c :: t, r)
    rw [List.append_assoc]
    by_cases h1 : c = '"'
    · subst h1; simp [escapeChar, parseStringAux, simpleEscape, ih]
    by_cases h2 : c = '\\'
    · subst h2; simp [escapeChar, parseStringAux, simpleEscape, ih]
    by_cases h3 : c = '\n'
    · subst h3; simp [escapeChar, parseStringAux, simpleEscape, ih]
    by_cases h4 : c = '\r'
    · subst h4; simp [escapeChar, parseStringAux, simpleEscape, ih]
    by_cases h5 : c = '\t'
    · subst h5; simp [escapeChar, parseStringAux, simpleEscape, ih]
    by_cases h6 : c = '<'
    · subst h6; simp [escapeChar, parseStringAux, hexQuad, hexCharVal, ih]
    by_cases h7 : c = '>'
    · subst h7; simp [escapeChar, parseStringAux, hexQuad, hexCharVal, ih]
    by_cases h8 : c = '&'
    · subst h8; simp [escapeChar, parseStringAux, hexQuad, hexCharVal, ih]
    by_cases h9 : c = Char.ofNat 0x2028
    · subst h9; simp [escapeChar, parseStringAux, hexQuad, hexCharVal, ih]
    by_cases h10 : c = Char.ofNat 0x2029
    · subst h10; simp [escapeChar, parseStringAux, hexQuad, hexCharVal, ih]
    by_cases h11 : c.toNat < 32
    · have hdiv : c.toNat / 16 < 16 := by omega
      have hmod : c.toNat % 16 < 16 := Nat.mod_lt _ (by omega)
      have hval : hexQuad '0' '0' (hexChar (c.toNat / 16)) (hexChar (c.toNat % 16)) =
          some c.toNat := by
        simp [hexQuad, hexCharVal_hexChar _ hdiv, hexCharVal_hexChar _ hmod,
          show hexCharVal '0' = some 0 from rfl]
        omega
      simp [escapeChar, h1, h2, h3, h4, h5, h6, h7, h8, h9, h10, h11,
        parseStringAux, hval, ih, Char.ofNat_toNat]
    · simp [escapeChar, h1, h2, h3, h4, h5, h6, h7, h8, h9, h10, h11,
        parseStringAux, ih]

/-! ## Number parsing -/

/-- `true` when the list does not start with a decimal digit (a number
literal ends at such a boundary). -/
def noDigitHead : List Char → Bool
  | [] => true
  | c :: _ => !c.isDigit

/-- Accumulate decimal digits greedily, returning the value and the rest. -/
def parseDigitsAux : List Char → Nat → Nat × List Char
  | [], acc => (acc, [])
  | c :: rest, acc =>
    if c.isDigit then parseDigitsAux rest (acc * 10 + digitVal c) else (acc, c :: rest)

/-- Parse a JSON integer literal: an optional minus sign then digits. -/
def parseNum : List Char → Option (Int × List Char)
  | [] => none
  | '-' :: rest =>
    match rest with
    | [] => none
    | d :: _ =>
      if d.isDigit then
        match parseDigitsAux rest 0 with
        | (n, rem) => some (-(n : Int), rem)
      else none
  | c :: rest =>
    if c.isDigit then
      match parseDigitsAux (c :: rest) 0 with
      | (n, rem) => some ((n : Int), rem)
    else none

theorem parseDigitsAux_spec (ds : List Char) (r : List Char)
    (hds : ∀ c ∈ ds, c.isDigit = true) (hr : noDigitHead r = true) (acc : Nat) :
    parseDigitsAux (ds ++ r) acc = (ds.foldl (fun a c => a * 10 + digitVal c) acc, r) := by
  induction ds generalizing acc with
  | nil =>
    cases r with
    | nil => rfl
    | cons c t =>
      simp only [noDigitHead, Bool.not_eq_true'] at hr
      simp [parseDigitsAux, hr]
  | cons c t ih =>
    have hc : c.isDigit = true := hds c (by simp)
    simp only [List.cons_append, parseDigitsAux, hc, if_true]
    exact ih (fun d hd => hds d (by simp [hd])) _

theorem natToDigitsAux_spec (fuel : Nat) : ∀ n, n < fuel →
    (∀ c ∈ natToDigitsAux fuel n, c.isDigit = true) ∧
    natToDigitsAux fuel n ≠ [] ∧
    ∀ acc, (natToDigitsAux fuel n).foldl (fun a c => a * 10 + digitVal c) acc
        = acc * 10 ^ (natToDigitsAux fuel n).length + n := by
  induction fuel with
  | zero => intro n hn; omega
  | succ fuel ih =>
    intro n hn
    by_cases h10 : n < 10
    · refine ⟨?_, ?_, ?_⟩
      · intro c hc
        simp only [natToDigitsAux, h10, if_true, List.mem_singleton] at hc
        subst hc; exact isDigit_digitChar n h10
      · simp [natToDigitsAux, h10]
      · intro acc
        simp [natToDigitsAux, h10, digitVal_digitChar n h10]
    · have hd : n / 10 < fuel := by
        have := Nat.div_lt_self (by omega : 0 < n) (by omega : 1 < 10)
        omega
      obtain ⟨ihd, ihne, ihfold⟩ := ih (n / 10) hd
      have hm : n % 10 < 10 := Nat.mod_lt _ (by omega)
      refine ⟨?_, ?_, ?_⟩
      · intro c hc
        simp only [natToDigitsAux, h10, if_false, List.mem_append, List.mem_singleton] at hc
        rcases hc with hc | hc
        · exact ihd c hc
        · subst hc; exact isDigit_digitChar _ hm
      · simp [natToDigitsAux, h10]
      · intro acc
        simp only [natToDigitsAux, h10, if_false, List.foldl_append, List.foldl_cons,
          List.foldl_nil, List.length_append, List.length_singleton, ihfold,
          digitVal_digitChar _ hm, pow_succ]
        have := Nat.div_add_mod n 10
        ring_nf
        omega

theorem natToDigits_digits (n : Nat) : ∀ c ∈ natToDigits n, c.isDigit = true :=
  (natToDigitsAux_spec (n + 1) n (by omega)).1

theorem natToDigits_ne_nil (n : Nat) : natToDigits n ≠ [] :=
  (natToDigitsAux_spec (n + 1) n (by omega)).2.1

theorem natToDigits_foldl (n : Nat) :
    (natToDigits n).foldl (fun a c => a * 10 + digitVal c) 0 = n := by
  have := ((natToDigitsAux_spec (n + 1) n (by omega)).2.2) 0
  simpa using this

theorem parseDigitsAux_natToDigits (n : Nat) (r : List Char) (hr : noDigitHead r = true) :
    parseDigitsAux (natToDigits n ++ r) 0 = (n, r) := by
  rw [parseDigitsAux_spec _ _ (natToDigits_digits n) hr, natToDigits_foldl]

theorem isDigit_ne_minus {c : Char} (h : c.isDigit = true) : c ≠ '-' := by
  intro he; subst he; exact absurd h (by decide)

/-- Parsing inverts decimal rendering of an integer, given a non-digit
boundary after it. -/
theorem parseNum_intToChars (i : Int) (r : List Char) (hr : noDigitHead r = true) :
    parseNum (intToChars i ++ r) = some (i, r) := by
  by_cases hi : i < 0
  · obtain ⟨c, cs, hcs⟩ : ∃ c cs, natToDigits i.natAbs = c :: cs := by
      cases h : natToDigits i.natAbs with
      | nil => exact absurd h (natToDigits_ne_nil _)
      | cons c cs => exact ⟨c, cs, rfl⟩
    have hc : c.isDigit = true :=
      natToDigits_digits i.natAbs c (by rw [hcs]; exact List.mem_cons_self c cs)
    have hparse := parseDigitsAux_natToDigits i.natAbs r hr
    rw [hcs] at hparse
    simp only [List.cons_append] at hparse
    simp only [intToChars, hi, if_true, hcs, List.cons_append]
    simp only [parseNum, hc, if_true, hparse]
    have habs : -((i.natAbs : Int)) = i := by omega
    rw [habs]
  · obtain ⟨c, cs, hcs⟩ : ∃ c cs, natToDigits i.toNat = c :: cs := by
      cases h : natToDigits i.toNat with
      | nil => exact absurd h (natToDigits_ne_nil _)
      | cons c cs => exact ⟨c, cs, rfl⟩
    have hc : c.isDigit = true :=
      natToDigits_digits i.toNat c (by rw [hcs]; exact List.mem_cons_self c cs)
    have hparse := parseDigitsAux_natToDigits i.toNat r hr
    have hne : c ≠ '-' := isDigit_ne_minus hc
    rw [hcs] at hparse
    simp only [List.cons_append] at hparse
    simp only [intToChars, hi, if_false, hcs, List.cons_append]
    simp [parseNum, hne, hc, hparse]
    omega

/-! ## JSON values

The fragment of JSON reachable from the program's data (`Student` /
`StudentDetails` marshal to strings, integers and objects; arrays, booleans
and null never occur). -/

mutual
inductive JVal : Type where
  | str : String → JVal
  | num : Int → JVal
  | obj : JMembers → JVal
inductive JMembers : Type where
  | nil : JMembers
  | cons : String → JVal → JMembers → JMembers
end

/-! ## Compact JSON rendering (Go's `json.Marshal` output format:
no whitespace, members in struct field order) -/

mutual
def renderVal : JVal → List Char
  | .str s => renderString s
  | .num i => intToChars i
  | .obj ms => lbrace :: (renderObjBody ms ++ [rbrace])
def renderObjBody : JMembers → List Char
  | .nil => []
  | .cons k v .nil => renderString k ++ ':' :: renderVal v
  | .cons k v (.cons k2 v2 ms) =>
    renderString k ++ ':' :: renderVal v ++ ',' :: renderObjBody (.cons k2 v2 ms)
end

def render (v : JVal) : String := String.mk (renderVal v)

/-! ## JSON parsing (fuelled recursive descent) -/

mutual
def parseVal : Nat → List Char → Option (JVal × List Char)
  | 0, _ => none
  | _ + 1, [] => none
  | fuel + 1, c :: rest =>
    if c = '"' then
      match parseStringAux rest with
      | some (s, rem) => some (JVal.str (String.mk s), rem)
      | none => none
    else if c = lbrace then
      match rest with
      | [] => none
      | c2 :: rest2 =>
        if c2 = rbrace then some (JVal.obj JMembers.nil, rest2)
        else
          match parseMembers fuel (c2 :: rest2) with
          | some (ms, rem) =>
            match rem with
            | r0 :: rem2 => if r0 = rbrace then some (JVal.obj ms, rem2) else none
            | [] => none
          | none => none
    else
      match parseNum (c :: rest) with
      | some (i, rem) => some (JVal.num i, rem)
      | none => none
def parseMembers : Nat → List Char → Option (JMembers × List Char)
  | 0, _ => none
  | _ + 1, [] => none
  | fuel + 1, c :: rest =>
    if c = '"' then
      match parseStringAux rest with
      | some (k, r1) =>
        match r1 with
        | ':' :: r2 =>
          match parseVal fuel r2 with
          | some (v, r3) =>
            match r3 with
            | ',' :: r4 =>
              match parseMembers fuel r4 with
              | some (ms, r5) => some (JMembers.cons (String.mk k) v ms, r5)
              | none => none
            | _ => some (JMembers.cons (String.mk k) v JMembers.nil, r3)
          | none => none
        | _ => none
      | none => none
    else none
end

/-- Parse a complete JSON document: the whole input must be consumed. -/
def parse (s : String) : Except String JVal :=
  match parseVal (s.data.length + 1) s.data with
  | some (v, []) => Except.ok v
  | _ => Except.error "invalid character in JSON input"

/-! ## The parser inverts the renderer -/

mutual
def jsizeV : JVal → Nat
  | .str _ => 1
  | .num _ => 1
  | .obj ms => jsizeM ms + 1
def jsizeM : JMembers → Nat
  | .nil => 1
  | .cons _ v ms => jsizeV v + jsizeM ms + 1
end

theorem jsizeM_pos (ms : JMembers) : 1 ≤ jsizeM ms := by
  cases ms <;> simp [jsizeM]

theorem jsizeV_pos (v : JVal) : 1 ≤ jsizeV v := by
  cases v <;> simp [jsizeV]

theorem stringMk_data (s : String) : String.mk s.data = s := rfl

theorem isDigit_ne_quote {c : Char} (h : c.isDigit = true) : c ≠ '"' := by
  intro he; subst he; exact absurd h (by decide)

theorem isDigit_ne_lbrace {c : Char} (h : c.isDigit = true) : c ≠ lbrace := by
  intro he; subst he; exact absurd h (by decide)

/-- The first character of a rendered integer is a minus sign or a digit;
in either case it is neither a quote nor an opening brace. -/
theorem intToChars_head (i : Int) :
    ∃ c cs, intToChars i = c :: cs ∧ c ≠ '"' ∧ c ≠ lbrace := by
  by_cases hi : i < 0
  · exact ⟨'-', natToDigits i.natAbs, by simp [intToChars, hi], by decide, by decide⟩
  · obtain ⟨c, cs, hcs⟩ : ∃ c cs, natToDigits i.toNat = c :: cs := by
      cases h : natToDigits i.toNat with
      | nil => exact absurd h (natToDigits_ne_nil _)
      | cons c cs => exact ⟨c, cs, rfl⟩
    have hc : c.isDigit = true :=
      natToDigits_digits i.toNat c (by rw [hcs]; exact List.mem_cons_self c cs)
    exact ⟨c, cs, by simp [intToChars, hi, hcs], isDigit_ne_quote hc, isDigit_ne_lbrace hc⟩

/-- Heads of rendered object bodies: a non-empty member list renders
starting with a quote. -/
theorem renderObjBody_cons_head (k : String) (v : JVal) (ms : JMembers) :
    ∃ t, renderObjBody (JMembers.cons k v ms) = '"' :: t := by
  cases ms <;> simp [renderObjBody, renderString]

mutual
/-- A rendered JSON value, followed by anything not starting with a digit,
parses back to that value (given enough fuel). -/
theorem parseVal_renderVal : ∀ (v : JVal) (fuel : Nat) (r : List Char),
    jsizeV v ≤ fuel → noDigitHead r = true →
    parseVal fuel (renderVal v ++ r) = some (v, r)
  | .str s => by
    intro fuel r hf _
    obtain ⟨f, rfl⟩ : ∃ f, fuel = f + 1 := by
      cases fuel with
      | zero => simp [jsizeV] at hf
      | succ f => exact ⟨f, rfl⟩
    have hps := parseStringAux_escapeList s.data r
    simp [renderVal, renderString, parseVal, hps, stringMk_data]
  | .num i => by
    intro fuel r hf hr
    obtain ⟨f, rfl⟩ : ∃ f, fuel = f + 1 := by
      cases fuel with
      | zero => simp [jsizeV] at hf
      | succ f => exact ⟨f, rfl⟩
    obtain ⟨c, cs, hcs, hq, hb⟩ := intToChars_head i
    have hpn := parseNum_intToChars i r hr
    rw [hcs] at hpn
    simp only [List.cons_append] at hpn
    simp only [renderVal, hcs, List.cons_append]
    simp [parseVal, hq, hb, hpn]
  | .obj .nil => by
    intro fuel r hf _
    obtain ⟨f, rfl⟩ : ∃ f, fuel = f + 1 := by
      cases fuel with
      | zero => simp [jsizeV] at hf
      | succ f => exact ⟨f, rfl⟩
    simp [renderVal, renderObjBody, parseVal,
      (by decide : ¬ (lbrace = '"')), (by decide : rbrace = rbrace)]
  | .obj (.cons k v2 ms2) => by
    intro fuel r hf _
    obtain ⟨f, rfl⟩ : ∃ f, fuel = f + 1 := by
      cases fuel with
      | zero => simp [jsizeV] at hf
      | succ f => exact ⟨f, rfl⟩
    have hfm : jsizeM (JMembers.cons k v2 ms2) ≤ f := by
      simp only [jsizeV] at hf; omega
    have hm := parseMembers_renderObjBody (JMembers.cons k v2 ms2) f r hfm (by simp)
    obtain ⟨t, ht⟩ := renderObjBody_cons_head k v2 ms2
    rw [ht] at hm
    simp only [renderVal, ht, List.cons_append, List.append_assoc,
      List.singleton_append] at hm ⊢
    simp [parseVal, (by decide : ¬ (lbrace = '"')), (by decide : ¬ ('"' = rbrace)), hm]
/-- A rendered non-empty member list, followed by a closing brace, parses
back to that member list, stopping at the closing brace. -/
theorem parseMembers_renderObjBody : ∀ (ms : JMembers) (fuel : Nat) (r : List Char),
    jsizeM ms ≤ fuel → ms ≠ JMembers.nil →
    parseMembers fuel (renderObjBody ms ++ rbrace :: r) = some (ms, rbrace :: r)
  | .nil => by
    intro fuel r _ hne
    exact absurd rfl hne
  | .cons k v .nil => by
    intro fuel r hf _
    obtain ⟨f, rfl⟩ : ∃ f, fuel = f + 1 := by
      cases fuel with
      | zero => simp [jsizeM] at hf
      | succ f => exact ⟨f, rfl⟩
    have hfv : jsizeV v ≤ f := by
      simp only [jsizeM] at hf; omega
    have hnd : noDigitHead (rbrace :: r) = true := by
      show (!rbrace.isDigit) = true; decide
    have hv := parseVal_renderVal v f (rbrace :: r) hfv hnd
    have hps := parseStringAux_escapeList k.data
      (':' :: (renderVal v ++ rbrace :: r))
    simp only [renderObjBody, renderString, List.cons_append, List.nil_append,
      List.append_assoc, List.singleton_append] at hps ⊢
    simp [parseMembers, hps, hv, stringMk_data, (by decide : ¬ (rbrace = ','))]
  | .cons k v (.cons k2 v2 ms2) => by
    intro fuel r hf _
    obtain ⟨f, rfl⟩ : ∃ f, fuel = f + 1 := by
      cases fuel with
      | zero => simp [jsizeM] at hf
      | succ f => exact ⟨f, rfl⟩
    have hfv : jsizeV v ≤ f := by
      have := jsizeM_pos (JMembers.cons k2 v2 ms2); simp only [jsizeM] at hf; omega
    have hfm : jsizeM (JMembers.cons k2 v2 ms2) ≤ f := by
      have := jsizeV_pos v; simp only [jsizeM] at hf ⊢; omega
    have hv := parseVal_renderVal v f
      (',' :: (renderObjBody (JMembers.cons k2 v2 ms2) ++ rbrace :: r))
      hfv (by show (!(',').isDigit) = true; decide)
    have hm := parseMembers_renderObjBody (JMembers.cons k2 v2 ms2) f r hfm (by simp)
    have hps := parseStringAux_escapeList k.data
      (':' :: (renderVal v ++ ',' :: (renderObjBody (JMembers.cons k2 v2 ms2) ++ rbrace :: r)))
    simp only [renderObjBody, renderString, List.cons_append, List.nil_append,
      List.append_assoc, List.singleton_append] at hps hm ⊢
    simp [parseMembers, hps, hv, hm, stringMk_data]
end

theorem intToChars_ne_nil (i : Int) : intToChars i ≠ [] := by
  obtain ⟨c, cs, hcs, _, _⟩ := intToChars_head i
  simp [hcs]

mutual
theorem jsizeV_le_length : ∀ v : JVal, jsizeV v ≤ (renderVal v).length
  | .str s => by simp [renderVal, renderString, jsizeV]
  | .num i => by
    have h := intToChars_ne_nil i
    simp only [renderVal, jsizeV]
    cases h2 : intToChars i with
    | nil => exact absurd h2 h
    | cons c cs => simp
  | .obj .nil => by simp [renderVal, renderObjBody, jsizeV, jsizeM]
  | .obj (.cons k v ms) => by
    have h := jsizeM_le_length (JMembers.cons k v ms)
    simp only [renderVal, jsizeV, List.length_cons, List.length_append,
      List.length_singleton]
    omega
theorem jsizeM_le_length : ∀ ms : JMembers, jsizeM ms ≤ (renderObjBody ms).length + 1
  | .nil => by simp [jsizeM, renderObjBody]
  | .cons k v .nil => by
    have hv := jsizeV_le_length v
    simp only [jsizeM, renderObjBody, renderString, List.length_append,
      List.length_cons, jsizeM]
    omega
  | .cons k v (.cons k2 v2 ms2) => by
    have hv := jsizeV_le_length v
    have hm := jsizeM_le_length (JMembers.cons k2 v2 ms2)
    simp only [jsizeM, renderObjBody, renderString, List.length_append,
      List.length_cons] at hm ⊢
    omega
end

/-- Round trip at the document level: parsing a rendered JSON value gives
back exactly that value. -/
theorem parse_render (v : JVal) : parse (render v) = Except.ok v := by
  have hfuel : jsizeV v ≤ (renderVal v).length + 1 := by
    have := jsizeV_le_length v; omega
  have h1 := parseVal_renderVal v ((renderVal v).length + 1) [] hfuel rfl
  simp only [List.append_nil] at h1
  simp only [parse, render]
  rw [h1]

/-! ## Go `encoding/json` for `Student` / `StudentDetails`

`json.Marshal` walks struct fields in declaration order.  `Student` has
tags `info,omitempty` / `rank,omitempty`: a nil `Info` pointer and a zero
`Rank` are omitted.  `StudentDetails` fields are untagged and are never
omitted, so empty strings survive. -/

def marshalDetailsJ (d : StudentDetails) : JVal :=
  JVal.obj (JMembers.cons "FirstName" (JVal.str d.FirstName)
    (JMembers.cons "LastName" (JVal.str d.LastName)
      (JMembers.cons "Major" (JVal.str d.Major) JMembers.nil)))

def marshalStudentJ (s : Student) : JVal :=
  JVal.obj
    (match s.Info with
     | some d =>
       JMembers.cons "info" (marshalDetailsJ d)
         (if s.Rank = 0 then JMembers.nil
          else JMembers.cons "rank" (JVal.num s.Rank) JMembers.nil)
     | none =>
       if s.Rank = 0 then JMembers.nil
       else JMembers.cons "rank" (JVal.num s.Rank) JMembers.nil)

/-- The bytes produced by `json.Marshal` on a `Student`. -/
def jsonMarshalStudent (s : Student) : String := render (marshalStudentJ s)

/-- First binding of a JSON object member list for a key (marshaled output
never repeats a key, so first-match agrees with Go's last-wins rule). -/
def lookupMember : JMembers → String → Option JVal
  | .nil, _ => none
  | .cons k v ms, key => if k = key then some v else lookupMember ms key

/-- Decode a string-typed struct field: a missing member leaves the zero
value `""`; a non-string value is a type error, as in `json.Unmarshal`. -/
def strField (ms : JMembers) (key : String) : Except String String :=
  match lookupMember ms key with
  | none => Except.ok ""
  | some (JVal.str s) => Except.ok s
  | some _ => Except.error "json: cannot unmarshal value into Go string field"

def unmarshalDetailsJ : JVal → Except String StudentDetails
  | JVal.obj ms =>
    match strField ms "FirstName", strField ms "LastName", strField ms "Major" with
    | Except.ok f, Except.ok l, Except.ok m => Except.ok ⟨f, l, m⟩
    | Except.error e, _, _ => Except.error e
    | _, Except.error e, _ => Except.error e
    | _, _, Except.error e => Except.error e
  | _ => Except.error "json: cannot unmarshal value into Go value of type StudentDetails"

/-- `json.Unmarshal` into a zero `&Student{}`: a missing `info` member
leaves the pointer nil, a missing `rank` leaves zero. -/
def unmarshalStudentJ : JVal → Except String Student
  | JVal.obj ms =>
    match
      (match lookupMember ms "info" with
       | none => Except.ok (none : Option StudentDetails)
       | some jv =>
         match unmarshalDetailsJ jv with
         | Except.ok d => Except.ok (some d)
         | Except.error e => Except.error e),
      (match lookupMember ms "rank" with
       | none => Except.ok (0 : Int)
       | some (JVal.num n) => Except.ok n
       | some _ => Except.error "json: cannot unmarshal value into Go int field") with
    | Except.ok info, Except.ok rank => Except.ok ⟨info, rank⟩
    | Except.error e, _ => Except.error e
    | _, Except.error e => Except.error e
  | _ => Except.error "json: cannot unmarshal value into Go value of type Student"

/-- The caller-side decode step `json.Unmarshal(b, &Student{})`. -/
def jsonUnmarshalStudent (b : String) : Except String Student :=
  match parse b with
  | Except.ok v => unmarshalStudentJ v
  | Except.error e => Except.error e

theorem unmarshal_marshal_details (d : StudentDetails) :
    unmarshalDetailsJ (marshalDetailsJ d) = Except.ok d := by
  cases d with
  | mk f l m => rfl

/-- Value-level round trip: unmarshaling the marshaled form of any
`Student` (nil or non-nil `Info`, zero or non-zero `Rank`) restores it. -/
theorem unmarshal_marshal_student (s : Student) :
    unmarshalStudentJ (marshalStudentJ s) = Except.ok s := by
  cases s with
  | mk info rank =>
    cases info with
    | none =>
      by_cases h : rank = 0 <;>
        simp [marshalStudentJ, unmarshalStudentJ, lookupMember, h]
    | some d =>
      cases d with
      | mk f l m =>
        by_cases h : rank = 0 <;>
          simp [marshalStudentJ, unmarshalStudentJ, lookupMember, h,
            marshalDetailsJ, unmarshalDetailsJ, strField]

/-- Byte-level round trip used by the JSON-in-hash strategy. -/
theorem jsonUnmarshal_jsonMarshal (s : Student) :
    jsonUnmarshalStudent (jsonMarshalStudent s) = Except.ok s := by
  simp [jsonUnmarshalStudent, jsonMarshalStudent, parse_render,
    unmarshal_marshal_student]

/-! ## The Redis store model

State of a healthy, reachable Redis server with the ReJSON module loaded:
hashes (for HMSET / HSET / HGET / HGETALL) and JSON documents (for
JSON.SET / JSON.GET).  Association lists keep first-written field order,
matching Redis hash-field enumeration order for these small hashes. -/

def alistGet {κ β : Type} [DecidableEq κ] : List (κ × β) → κ → Option β
  | [], _ => none
  | (k, v) :: t, key => if k = key then some v else alistGet t key

def alistSet {κ β : Type} [DecidableEq κ] : List (κ × β) → κ → β → List (κ × β)
  | [], key, v => [(key, v)]
  | (k, w) :: t, key, v =>
    if k = key then (key, v) :: t else (k, w) :: alistSet t key v

theorem alistGet_alistSet_self {κ β : Type} [DecidableEq κ]
    (l : List (κ × β)) (k : κ) (v : β) : alistGet (alistSet l k v) k = some v := by
  induction l with
  | nil => simp [alistGet, alistSet]
  | cons p t ih =>
    obtain ⟨k0, v0⟩ := p
    by_cases h : k0 = k
    · simp [alistGet, alistSet, h]
    · simp [alistGet, alistSet, h, ih]

/-- A Redis hash: field name to string value. -/
abbrev Hash := List (String × String)

structure RedisState where
  hashes : List (String × Hash)
  jsons : List (String × JVal)

def emptyRedisState : RedisState := ⟨[], []⟩

def hashAt (st : RedisState) (key : String) : Option Hash := alistGet st.hashes key

def jsonAt (st : RedisState) (key : String) : Option JVal := alistGet st.jsons key

def setManyFields (h : Hash) (ps : List (String × String)) : Hash :=
  ps.foldl (fun acc p => alistSet acc p.1 p.2) h

/-- The store commands the program can send (the argument lists the program
builds for `conn.Do` / the go-rejson helpers). -/
inductive Cmd : Type where
  | hmset (key : String) (pairs : List (String × String))
  | hset (key field value : String)
  | hget (key field : String)
  | hgetall (key : String)
  | jsonset (key path payload : String) (nx xx : Bool)
  | jsonget (key path : String)
deriving DecidableEq, Repr

/-- Wire replies the model distinguishes. -/
inductive Reply : Type where
  | simpleOk
  | bulk (s : Option String)
  | fieldList (l : List (String × String))
deriving DecidableEq, Repr

/-- One request/response against the store.  Semantics of each command as
Redis and ReJSON define them for the paths this program exercises:
`HGETALL` of a missing key is an empty field list (not an error); `HGET` of
a missing key or field is a nil bulk; `JSON.SET` parses the payload and
stores the document (the `NX`/`XX` condition failing yields a nil bulk and
no mutation); `JSON.GET` of a missing key is an error, and of a present key
re-serializes the stored document; only the root path (`"."` for JSON.SET,
`""`, meaning no path argument, for JSON.GET) is modelled because the
program issues no other path. -/
def runCmd (st : RedisState) : Cmd → RedisState × Except String Reply
  | Cmd.hmset key ps =>
    ({ st with hashes := alistSet st.hashes key (setManyFields ((hashAt st key).getD []) ps) },
      Except.ok Reply.simpleOk)
  | Cmd.hset key f v =>
    ({ st with hashes := alistSet st.hashes key (alistSet ((hashAt st key).getD []) f v) },
      Except.ok Reply.simpleOk)
  | Cmd.hget key f =>
    (st, Except.ok (Reply.bulk ((hashAt st key).bind (fun h => alistGet h f))))
  | Cmd.hgetall key =>
    (st, Except.ok (Reply.fieldList ((hashAt st key).getD [])))
  | Cmd.jsonset key path payload nx xx =>
    if path = "." then
      if (nx && (jsonAt st key).isSome) || (xx && (jsonAt st key).isNone) then
        (st, Except.ok (Reply.bulk none))
      else
        match parse payload with
        | Except.ok v => ({ st with jsons := alistSet st.jsons key v }, Except.ok Reply.simpleOk)
        | Except.error _ => (st, Except.error "ERR invalid JSON payload")
    else (st, Except.error "ERR unsupported path")
  | Cmd.jsonget key path =>
    if path = "" ∨ path = "." then
      match jsonAt st key with
      | some v => (st, Except.ok (Reply.bulk (some (render v))))
      | none => (st, Except.error "ERR key does not exist")
    else (st, Except.error "ERR unsupported path")

/-! ## Redigo's reflection-based flattening (`redis.Args{key}.AddFlat`)

`AddFlat` on a `Student` appends one (field-name, value) pair per struct
field, in declaration order.  Writing the argument puts a non-primitive
value through `fmt`: a `*StudentDetails` pointer prints as
`&{FirstName LastName Major}` (space-separated field values), and a nil
pointer prints as `<nil>`; an `int` prints in decimal. -/

def fmtDetailPtr : Option StudentDetails → String
  | none => "<nil>"
  | some d => "&\x7b" ++ d.FirstName ++ " " ++ d.LastName ++ " " ++ d.Major ++ "\x7d"

def addFlatStudent (s : Student) : List (String × String) :=
  [("Info", fmtDetailPtr s.Info), ("Rank", intToString s.Rank)]

/-! ## The program's wrapper functions (from `src/main.go`)

Each Go wrapper takes the connection (here: the store state, threaded
explicitly), a key and, for writes, the value.  The `...Cmd` definition is
the exact command the wrapper sends; the wrapper then runs it and
propagates errors as the Go code does. -/

/-- `addStructHash`: `conn.Do("HMSET", redis.Args{key}.AddFlat(value)...)`. -/
def addStructHashCmd (key : String) (value : Student) : Cmd :=
  Cmd.hmset key (addFlatStudent value)

def addStructHash (st : RedisState) (key : String) (value : Student) :
    RedisState × Except String Unit :=
  match runCmd st (addStructHashCmd key value) with
  | (st2, Except.ok _) => (st2, Except.ok ())
  | (st2, Except.error e) => (st2, Except.error e)

/-- `getStructHash`: the body is `conn.Do("HGETALL", "JohnDoeHash")` — the
`key` parameter is ignored and the key name is hard-coded. -/
def getStructHashCmd (key : String) : Cmd :=
  Cmd.hgetall "JohnDoeHash"

/-- `getStructHash` composed with the `redis.StringMap` conversion `main`
applies to its reply (an HGETALL reply converts to field/value pairs). -/
def getStructHash (st : RedisState) (key : String) :
    RedisState × Except String (List (String × String)) :=
  match runCmd st (getStructHashCmd key) with
  | (st2, Except.ok (Reply.fieldList l)) => (st2, Except.ok l)
  | (st2, Except.ok _) => (st2, Except.error "unexpected reply type")
  | (st2, Except.error e) => (st2, Except.error e)

/-- `addStructReJSON`: `rejson.JSONSet(conn, key, ".", value, false, false)` —
go-rejson marshals the value with `json.Marshal` and sends
`JSON.SET key . <payload>`, with no `NX`/`XX` argument since both flags are
`false`. -/
def addStructReJSONCmd (key : String) (value : Student) : Cmd :=
  Cmd.jsonset key "." (jsonMarshalStudent value) false false

def addStructReJSON (st : RedisState) (key : String) (value : Student) :
    RedisState × Except String Unit :=
  match runCmd st (addStructReJSONCmd key value) with
  | (st2, Except.ok _) => (st2, Except.ok ())
  | (st2, Except.error e) => (st2, Except.error e)

/-- `getStructReJSON`: `rejson.JSONGet(conn, key, "")` sends
`JSON.GET key` (root path). -/
def getStructReJSONCmd (key : String) : Cmd :=
  Cmd.jsonget key ""

def getStructReJSON (st : RedisState) (key : String) :
    RedisState × Except String (Option String) :=
  match runCmd st (getStructReJSONCmd key) with
  | (st2, Except.ok (Reply.bulk b)) => (st2, Except.ok b)
  | (st2, Except.ok _) => (st2, Except.error "unexpected reply type")
  | (st2, Except.error e) => (st2, Except.error e)

/-- `addStructHashWithJSON`, generic in the marshaling step (the Go
function takes `value interface{}` and calls `json.Marshal`, which can fail
on unsupported types): on a marshal error the function returns at once —
no store command is issued (the returned list is the commands sent). -/
def addStructHashWithJSONGen {α : Type} (marshal : α → Except String String)
    (st : RedisState) (key : String) (value : α) :
    RedisState × List Cmd × Except String Unit :=
  match marshal value with
  | Except.error e => (st, [], Except.error e)
  | Except.ok b =>
    match runCmd st (Cmd.hset key "JSON" b) with
    | (st2, Except.ok _) => (st2, [Cmd.hset key "JSON" b], Except.ok ())
    | (st2, Except.error e) => (st2, [Cmd.hset key "JSON" b], Except.error e)

/-- The command `addStructHashWithJSON` sends for a `Student` (for which
`json.Marshal` always succeeds): `HSET key "JSON" <marshaled bytes>`. -/
def addStructHashWithJSONCmd (key : String) (value : Student) : Cmd :=
  Cmd.hset key "JSON" (jsonMarshalStudent value)

def addStructHashWithJSON (st : RedisState) (key : String) (value : Student) :
    RedisState × Except String Unit :=
  let r := addStructHashWithJSONGen (fun s => Except.ok (jsonMarshalStudent s)) st key value
  (r.1, r.2.2)

/-- `getStructHashWithJSON`: `conn.Do("HGET", key, "JSON")`. -/
def getStructHashWithJSONCmd (key : String) : Cmd :=
  Cmd.hget key "JSON"

def getStructHashWithJSON (st : RedisState) (key : String) :
    RedisState × Except String (Option String) :=
  match runCmd st (getStructHashWithJSONCmd key) with
  | (st2, Except.ok (Reply.bulk b)) => (st2, Except.ok b)
  | (st2, Except.ok _) => (st2, Except.error "unexpected reply type")
  | (st2, Except.error e) => (st2, Except.error e)

/-- The example record `main` builds. -/
def johnDoe : Student := ⟨some ⟨"John", "Doe", "CSE"⟩, 1⟩

/-- The store commands `main` issues, in order, when no step fails (the
keys and the record are the literals from `src/main.go`). -/
def mainCmds : List Cmd :=
  [addStructHashCmd "JohnDoeHash" johnDoe,
   addStructReJSONCmd "JohnDoeJSON" johnDoe,
   getStructHashCmd "JohnDoeHash",
   getStructReJSONCmd "JohnDoeJSON",
   addStructHashWithJSONCmd "JohnDoeHashJSON" johnDoe,
   getStructHashWithJSONCmd "JohnDoeHashJSON"]

/-- `true` iff a command is not a conditional JSON write: any `JSON.SET`
must carry `NX = false` and `XX = false`. -/
def unconditionalJsonSet : Cmd → Bool
  | Cmd.jsonset _ _ _ nx xx => !nx && !xx
  | _ => true

/-! ## Pointer-level view of the caller's record

`student` in `main` holds `Info *StudentDetails`: the nested `Detail` lives
behind a pointer, so a callee could in principle mutate it.  To state the
frame property we model the pointer explicitly: a heap of `StudentDetails`
cells and a record holding an optional address.  Each write wrapper only
reads the record (`AddFlat` reflection, `json.Marshal`), translated here by
dereferencing into a value and passing the heap through untouched — the Go
bodies contain no assignment through `value` or its `Info` pointer. -/

structure GoHeap where
  cells : List (Nat × StudentDetails)
deriving DecidableEq, Repr

/-- A `Student` as the caller holds it: the `Info` pointer is a heap
address (or nil). -/
structure StudentRef where
  Info : Option Nat
  Rank : Int
deriving DecidableEq, Repr

/-- The record value observable through the reference. -/
def derefStudent (h : GoHeap) (r : StudentRef) : Student :=
  ⟨r.Info.bind (fun a => alistGet h.cells a), r.Rank⟩

def addStructHashRef (h : GoHeap) (st : RedisState) (key : String) (r : StudentRef) :
    GoHeap × RedisState × Except String Unit :=
  (h, addStructHash st key (derefStudent h r))

def addStructReJSONRef (h : GoHeap) (st : RedisState) (key : String) (r : StudentRef) :
    GoHeap × RedisState × Except String Unit :=
  (h, addStructReJSON st key (derefStudent h r))

def addStructHashWithJSONRefGen (marshal : Student → Except String String)
    (h : GoHeap) (st : RedisState) (key : String) (r : StudentRef) :
    GoHeap × RedisState × List Cmd × Except String Unit :=
  (h, addStructHashWithJSONGen marshal st key (derefStudent h r))

/-! ## The claims -/

/-- C1: for every `Record` with a non-empty `Detail` and every key, writing
with the JSON-in-hash strategy (`addStructHashWithJSON`) and reading back
(`getStructHashWithJSON`) returns exactly the marshaled bytes, and JSON
decoding of those bytes restores a `Record` equal to the original — empty
`Detail` string fields included (they carry no `omitempty` tag). -/
theorem c1_jsonInHash_roundtrip (st : RedisState) (key : String) (r : Student)
    (h : r.Info ≠ none) :
    (getStructHashWithJSON (addStructHashWithJSON st key r).1 key).2 =
      Except.ok (some (jsonMarshalStudent r)) ∧
    jsonUnmarshalStudent (jsonMarshalStudent r) = Except.ok r := by
  constructor
  · simp [addStructHashWithJSON, addStructHashWithJSONGen, runCmd,
      getStructHashWithJSON, getStructHashWithJSONCmd, hashAt, alistGet_alistSet_self]
  · exact jsonUnmarshal_jsonMarshal r

theorem c1_jsonInHash_roundtrip_witness :
    (Student.mk (some (StudentDetails.mk "" "" "CSE")) 0).Info ≠ none ∧
    ((getStructHashWithJSON
        (addStructHashWithJSON emptyRedisState "JohnDoeHashJSON"
          (Student.mk (some (StudentDetails.mk "" "" "CSE")) 0)).1 "JohnDoeHashJSON").2 =
      Except.ok (some (jsonMarshalStudent (Student.mk (some (StudentDetails.mk "" "" "CSE")) 0))) ∧
    jsonUnmarshalStudent (jsonMarshalStudent (Student.mk (some (StudentDetails.mk "" "" "CSE")) 0)) =
      Except.ok (Student.mk (some (StudentDetails.mk "" "" "CSE")) 0)) :=
  ⟨by decide,
    c1_jsonInHash_roundtrip emptyRedisState "JohnDoeHashJSON"
      (Student.mk (some (StudentDetails.mk "" "" "CSE")) 0) (by decide)⟩

/-- C2: the claim says `getStructHash` reads the hash named by its key
argument; the code hard-codes `"JohnDoeHash"` and ignores the argument
(`return conn.Do("HGETALL", "JohnDoeHash")`), so for any key other than
`"JohnDoeHash"` the issued command is not against that key. -/
theorem c2_getStructHash_hardcoded_key :
    (∀ key : String, getStructHashCmd key = Cmd.hgetall "JohnDoeHash") ∧
    getStructHashCmd "SomeOtherKey" ≠ Cmd.hgetall "SomeOtherKey" :=
  ⟨fun _ => rfl, by decide⟩

/-- C3: for every `Record` with a non-empty `Detail` and every key, the
native-JSON write (`addStructReJSON`) followed by a whole-document read at
the root path (`getStructReJSON`) returns the document bytes, and JSON
decoding restores a `Record` equal to the original. -/
theorem c3_rejson_roundtrip (st : RedisState) (key : String) (r : Student)
    (h : r.Info ≠ none) :
    (getStructReJSON (addStructReJSON st key r).1 key).2 =
      Except.ok (some (jsonMarshalStudent r)) ∧
    jsonUnmarshalStudent (jsonMarshalStudent r) = Except.ok r := by
  constructor
  · have hp : parse (render (marshalStudentJ r)) = Except.ok (marshalStudentJ r) :=
      parse_render (marshalStudentJ r)
    simp [addStructReJSON, addStructReJSONCmd, runCmd, hp, getStructReJSON,
      getStructReJSONCmd, jsonAt, alistGet_alistSet_self, jsonMarshalStudent]
  · exact jsonUnmarshal_jsonMarshal r

theorem c3_rejson_roundtrip_witness :
    (Student.mk (some (StudentDetails.mk "Ann" "" "EEE")) (-2)).Info ≠ none ∧
    ((getStructReJSON
        (addStructReJSON emptyRedisState "JohnDoeJSON"
          (Student.mk (some (StudentDetails.mk "Ann" "" "EEE")) (-2))).1 "JohnDoeJSON").2 =
      Except.ok (some (jsonMarshalStudent (Student.mk (some (StudentDetails.mk "Ann" "" "EEE")) (-2)))) ∧
    jsonUnmarshalStudent (jsonMarshalStudent (Student.mk (some (StudentDetails.mk "Ann" "" "EEE")) (-2))) =
      Except.ok (Student.mk (some (StudentDetails.mk "Ann" "" "EEE")) (-2))) :=
  ⟨by decide,
    c3_rejson_roundtrip emptyRedisState "JohnDoeJSON"
      (Student.mk (some (StudentDetails.mk "Ann" "" "EEE")) (-2)) (by decide)⟩

/-- C4: if the `json.Marshal` step inside `addStructHashWithJSON` fails,
the function returns that error having issued no store command, and the
store state is unchanged. -/
theorem c4_marshal_error_no_store_call {α : Type} (marshal : α → Except String String)
    (st : RedisState) (key : String) (value : α) (e : String)
    (h : marshal value = Except.error e) :
    addStructHashWithJSONGen marshal st key value = (st, [], Except.error e) := by
  simp [addStructHashWithJSONGen, h]

theorem c4_marshal_error_no_store_call_witness :
    (fun _ : Unit => (Except.error "json: unsupported type: chan int" : Except String String)) ()
        = Except.error "json: unsupported type: chan int" ∧
    addStructHashWithJSONGen
        (fun _ : Unit => (Except.error "json: unsupported type: chan int" : Except String String))
        emptyRedisState "JohnDoeHashJSON" () =
      (emptyRedisState, [], Except.error "json: unsupported type: chan int") :=
  ⟨rfl,
    c4_marshal_error_no_store_call
      (fun _ : Unit => (Except.error "json: unsupported type: chan int" : Except String String))
      emptyRedisState "JohnDoeHashJSON" () "json: unsupported type: chan int" rfl⟩

/-- C5 counterexample to the claim as stated ("for every key k"): writing
`johnDoe` under key `"K2"` and reading `"K2"` back returns the empty
mapping (the hard-coded `"JohnDoeHash"` hash is absent), which does not map
`"Info"` to anything at all — so the claimed shape of the returned mapping
fails at this input. -/
theorem c5_flattening_counterexample :
    johnDoe.Info ≠ none ∧
    (getStructHash (addStructHash emptyRedisState "K2" johnDoe).1 "K2").2 = Except.ok [] ∧
    alistGet ([] : List (String × String)) "Info" = none :=
  ⟨by decide, rfl, rfl⟩

/-- C5 amended: with the write key fixed to `"JohnDoeHash"` (the hash
`getStructHash` actually reads) and that hash initially absent, the
read-back mapping binds `"Info"` to the single flat `fmt` rendering
`&{FirstName LastName Major}` and `"Rank"` to the decimal rank — and to
nothing else: the `Detail`'s individual fields are not retrievable. -/
theorem c5_flattening_lossy_amended (st : RedisState) (r : Student) (d : StudentDetails)
    (k : String) (hr : r.Info = some d) (h0 : hashAt st "JohnDoeHash" = none) :
    (getStructHash (addStructHash st "JohnDoeHash" r).1 k).2 =
      Except.ok [("Info", "&\x7b" ++ d.FirstName ++ " " ++ d.LastName ++ " " ++ d.Major ++ "\x7d"),
        ("Rank", intToString r.Rank)] := by
  have h0a : alistGet st.hashes "JohnDoeHash" = none := h0
  simp [addStructHash, addStructHashCmd, runCmd, getStructHash, getStructHashCmd,
    hashAt, h0a, setManyFields, addFlatStudent, alistSet, alistGet_alistSet_self,
    hr, fmtDetailPtr, (by decide : ¬ ("Info" = "Rank"))]

theorem c5_flattening_lossy_amended_witness :
    johnDoe.Info = some (StudentDetails.mk "John" "Doe" "CSE") ∧
    hashAt emptyRedisState "JohnDoeHash" = none ∧
    (getStructHash (addStructHash emptyRedisState "JohnDoeHash" johnDoe).1 "AnyKey").2 =
      Except.ok [("Info", "&\x7b" ++ "John" ++ " " ++ "Doe" ++ " " ++ "CSE" ++ "\x7d"),
        ("Rank", intToString (1 : Int))] :=
  ⟨rfl, rfl,
    c5_flattening_lossy_amended emptyRedisState johnDoe
      (StudentDetails.mk "John" "Doe" "CSE") "AnyKey" rfl rfl⟩

/-- C6: the JSON text of the example record maps `Info`/`Rank` to the
lower-case keys `info`/`rank` while `StudentDetails` keys stay as-is, and
the native-JSON write/read of the example record under `"JohnDoeJSON"`
returns exactly that text, which decodes back to the record. -/
theorem c6_field_name_mapping :
    jsonMarshalStudent johnDoe =
      "\x7b\"info\":\x7b\"FirstName\":\"John\",\"LastName\":\"Doe\",\"Major\":\"CSE\"\x7d,\"rank\":1\x7d" ∧
    (getStructReJSON (addStructReJSON emptyRedisState "JohnDoeJSON" johnDoe).1 "JohnDoeJSON").2 =
      Except.ok (some
        "\x7b\"info\":\x7b\"FirstName\":\"John\",\"LastName\":\"Doe\",\"Major\":\"CSE\"\x7d,\"rank\":1\x7d") ∧
    jsonUnmarshalStudent
        "\x7b\"info\":\x7b\"FirstName\":\"John\",\"LastName\":\"Doe\",\"Major\":\"CSE\"\x7d,\"rank\":1\x7d" =
      Except.ok johnDoe :=
  ⟨rfl, rfl, rfl⟩

/-- C7: `addStructReJSON` always sends the unconditional JSON.SET — both
the `NX` ("only if absent") and `XX` ("only if present") flags are `false`
for every key and value — and every command of `main`'s call paths that is
a JSON.SET carries both flags `false`. -/
theorem c7_unconditional_jsonset :
    (∀ (key : String) (v : Student),
      addStructReJSONCmd key v = Cmd.jsonset key "." (jsonMarshalStudent v) false false) ∧
    mainCmds.all unconditionalJsonSet = true :=
  ⟨fun _ _ => rfl, rfl⟩

/-- C8 counterexample to "returns an error whenever the key does not
exist": with an empty store (so the hash it reads is absent) the function
returns `ok` with the empty mapping, not an error — Redis `HGETALL` of a
missing key is an empty reply. -/
theorem c8_missing_key_counterexample :
    hashAt emptyRedisState "JohnDoeHash" = none ∧
    (getStructHash emptyRedisState "JohnDoeHash").2 = Except.ok [] :=
  ⟨rfl, rfl⟩

/-- C8 amended: against a reachable store, `getStructHash` never turns a
missing key into an error: when the hash it reads (`"JohnDoeHash"`) is
absent it returns the empty mapping with no error and leaves the store
unchanged.  (Errors would arise only from a failing store call, which a
healthy store does not produce.) -/
theorem c8_missing_key_empty_ok (st : RedisState) (key : String)
    (h : hashAt st "JohnDoeHash" = none) :
    getStructHash st key = (st, Except.ok []) := by
  simp [getStructHash, getStructHashCmd, runCmd, h]

theorem c8_missing_key_empty_ok_witness :
    hashAt emptyRedisState "JohnDoeHash" = none ∧
    getStructHash emptyRedisState "SomeKey" = (emptyRedisState, Except.ok []) :=
  ⟨rfl, c8_missing_key_empty_ok emptyRedisState "SomeKey" rfl⟩

/-- C9: none of the three write wrappers mutates the caller's record: the
heap of `StudentDetails` cells is returned untouched and the record value
observable through the reference is identical before and after each call
(also under a failing marshal step, covered by the generic variant). -/
theorem c9_no_record_mutation (h : GoHeap) (st : RedisState) (key : String)
    (r : StudentRef) (marshal : Student → Except String String) :
    (addStructHashRef h st key r).1 = h ∧
    (addStructReJSONRef h st key r).1 = h ∧
    (addStructHashWithJSONRefGen marshal h st key r).1 = h ∧
    derefStudent (addStructHashRef h st key r).1 r = derefStudent h r ∧
    derefStudent (addStructReJSONRef h st key r).1 r = derefStudent h r ∧
    derefStudent (addStructHashWithJSONRefGen marshal h st key r).1 r = derefStudent h r :=
  ⟨rfl, rfl, rfl, rfl, rfl, rfl⟩

/-- C10: the zero `Record` (nil `Detail`, rank 0) marshals to the empty
object (both fields carry `omitempty`), survives the JSON-in-hash write/read
round trip, and decodes back with the `Detail` reference still nil. -/
theorem c10_zero_student_roundtrip :
    jsonMarshalStudent (Student.mk none 0) = "\x7b\x7d" ∧
    (getStructHashWithJSON
        (addStructHashWithJSON emptyRedisState "JohnDoeHashJSON" (Student.mk none 0)).1
        "JohnDoeHashJSON").2 = Except.ok (some "\x7b\x7d") ∧
    jsonUnmarshalStudent "\x7b\x7d" = Except.ok (Student.mk none 0) ∧
    (Student.mk none 0).Info = none :=
  ⟨rfl, rfl, rfl, rfl⟩

end RejsonStruct
